import Mathlib

/-!
Verification of the termui compositor: a shallow embedding of the
frame-capture path (`src/compositor/state.rs`), the kitty graphics
encoder (`src/terminal/kitty.rs`), the terminal input translator
(`src/terminal/input.rs`) and the keycode derivation (`src/main.rs`),
together with proofs of the specified properties.

Bytes are modelled as `Nat` with explicit `< 256` bounds; `f32`/`f64`
arithmetic in the scaler and the cell-to-pixel mapping is modelled as
exact rational arithmetic over `ℚ`.
-/

namespace Termui

/-! ### Base64 (model of the base64 crate's STANDARD engine used in kitty.rs) -/

/-- The standard base64 alphabet. -/
def b64alphabet : List Char :=
  "ABCDEFGHIJKLMNOPQRSTUVWXYZabcdefghijklmnopqrstuvwxyz0123456789+/".toList

/-- The character encoding a 6-bit value. -/
def b64char (n : Nat) : Char := b64alphabet.getD n 'A'

/-- The 6-bit value of an alphabet character. -/
def b64val (c : Char) : Nat := b64alphabet.indexOf c

/-- Standard base64 encoding with padding: 3 input bytes become 4
alphabet characters; a 2-byte tail becomes 3 characters and one pad;
a 1-byte tail becomes 2 characters and two pads. -/
def b64encode : List Nat → List Char
  | a :: b :: c :: rest =>
      b64char (a / 4) :: b64char ((a % 4) * 16 + b / 16) ::
      b64char ((b % 16) * 4 + c / 64) :: b64char (c % 64) :: b64encode rest
  | [a, b] =>
      [b64char (a / 4), b64char ((a % 4) * 16 + b / 16), b64char ((b % 16) * 4), '=']
  | [a] =>
      [b64char (a / 4), b64char ((a % 4) * 16), '=', '=']
  | [] => []

/-- Reassemble bytes from a list of 6-bit values. -/
def b64decodeCore : List Nat → List Nat
  | a :: b :: c :: d :: rest =>
      (a * 4 + b / 16) :: ((b % 16) * 16 + c / 4) :: ((c % 4) * 64 + d) ::
        b64decodeCore rest
  | [a, b, c] => [a * 4 + b / 16, (b % 16) * 16 + c / 4]
  | [a, b] => [a * 4 + b / 16]
  | _ => []

/-- Standard base64 decoding: drop padding, map characters to 6-bit
values, reassemble bytes. -/
def b64decode (s : List Char) : List Nat :=
  b64decodeCore ((s.filter (fun c => c ≠ '=')).map b64val)

/-! ### Kitty graphics encoder (kitty.rs) -/

/-- Model of Rust slice `chunks`: `acc` accumulates the current chunk in
reverse, `k` counts the characters still allowed in it. -/
def chunksGo (acc : List Char) (k : Nat) : List Char → List (List Char)
  | [] => if acc.isEmpty then [] else [acc.reverse]
  | c :: cs =>
      match k with
      | 0 => acc.reverse :: chunksGo [c] 4095 cs
      | Nat.succ k => chunksGo (c :: acc) k cs

/-- `encoded.as_bytes().chunks(CHUNK_SIZE)` with `CHUNK_SIZE = 4096`. -/
def chunks4096 (s : List Char) : List (List Char) := chunksGo [] 4096 s

/-- One emitted graphics-escape chunk: the first chunk of a frame
carries action `a`, format `f`, size `s`/`v`, more-flag `m`, image id
`i` and quiet flag `q`; continuation chunks carry only `m`. -/
inductive GChunk where
  | first (a : String) (f : Nat) (s : Nat) (v : Nat) (m : Nat) (i : Nat) (q : Nat)
      (payload : List Char)
  | cont (m : Nat) (payload : List Char)
deriving DecidableEq, Repr

def GChunk.mFlag : GChunk → Nat
  | .first _ _ _ _ m _ _ _ => m
  | .cont m _ => m

def GChunk.payload : GChunk → List Char
  | .first _ _ _ _ _ _ _ p => p
  | .cont _ p => p

def GChunk.action : GChunk → Option String
  | .first a _ _ _ _ _ _ _ => some a
  | .cont _ _ => none

def GChunk.fmt : GChunk → Option Nat
  | .first _ f _ _ _ _ _ _ => some f
  | .cont _ _ => none

def GChunk.sParam : GChunk → Option Nat
  | .first _ _ s _ _ _ _ _ => some s
  | .cont _ _ => none

def GChunk.vParam : GChunk → Option Nat
  | .first _ _ _ v _ _ _ _ => some v
  | .cont _ _ => none

def GChunk.imageId : GChunk → Option Nat
  | .first _ _ _ _ _ i _ _ => some i
  | .cont _ _ => none

def GChunk.quiet : GChunk → Option Nat
  | .first _ _ _ _ _ _ q _ => some q
  | .cont _ _ => none

/-- The chunk-emission loop of `display_frame`: the first iteration
emits the parameter-carrying chunk, later iterations continuation
chunks; `m` is 0 exactly when no chunks remain. -/
def mkChunks (width height imageId : Nat) : Bool → List (List Char) → List GChunk
  | _, [] => []
  | isFirst, chunk :: rest =>
      let m := if rest.isEmpty then 0 else 1
      (if isFirst then GChunk.first "T" 32 width height m imageId 2 chunk
       else GChunk.cont m chunk) :: mkChunks width height imageId false rest

/-- Rust `value as u8` on a nonnegative float: truncate, saturating at 255. -/
def rustTruncU8 (v : ℚ) : Nat := if v ≤ 0 then 0 else min 255 (⌊v⌋).toNat

/-- The binary exponent of a positive rational: the `e` with
`2 ^ e ≤ q < 2 ^ (e + 1)`, computed from the bit lengths of numerator
and denominator with a one-step fix-up. -/
def rexp (q : ℚ) : ℤ :=
  let e0 : ℤ := (Nat.log2 q.num.toNat : ℤ) - (Nat.log2 q.den : ℤ)
  if q < 2 ^ e0 then e0 - 1 else e0

/-- Round a positive rational to the nearest `f32` value (24-bit
significand, round to nearest, ties to even; exponent range unbounded,
which is exact for all magnitudes this program produces). -/
def floatRoundPos (q : ℚ) : ℚ :=
  let e := rexp q
  let scaled := q * 2 ^ ((23 : ℤ) - e)
  let lo := ⌊scaled⌋
  let frac := scaled - (lo : ℚ)
  let rounded := if frac < 1 / 2 then lo
    else if 1 / 2 < frac then lo + 1
    else if lo % 2 = 0 then lo else lo + 1
  (rounded : ℚ) * 2 ^ (e - (23 : ℤ))

/-- `f32` rounding of a real (rational) value: every `f32` arithmetic
operation of the program is modelled as the exact result passed through
this function. -/
def floatRound (q : ℚ) : ℚ :=
  if q = 0 then 0
  else if 0 < q then floatRoundPos q
  else -floatRoundPos (-q)

/-- Rust `value as u32` on a nonnegative float: truncate. -/
def rustTruncU32 (v : ℚ) : Nat := (⌊v⌋).toNat

/-- Bilinear scaling of a tightly packed RGBA byte list
(`scale_image` in kitty.rs), idealized: `f32` arithmetic evaluated
exactly on `ℚ` and sizes as unbounded `Nat`. This version backs the
untaken scaling branch of `display_frame`; the bit-faithful model with
`f32` rounding and `u32` wrapping is `scale_image_rs` below. -/
def scale_image (data : List Nat) (srcWidth srcHeight dstWidth dstHeight : Nat) :
    List Nat :=
  let ratioX : ℚ := (srcWidth : ℚ) / (dstWidth : ℚ)
  let ratioY : ℚ := (srcHeight : ℚ) / (dstHeight : ℚ)
  (List.range dstHeight).flatMap fun dstY =>
    (List.range dstWidth).flatMap fun dstX =>
      let srcX : ℚ := (dstX : ℚ) * ratioX
      let srcY : ℚ := (dstY : ℚ) * ratioY
      let x0 : Nat := (⌊srcX⌋).toNat
      let y0 : Nat := (⌊srcY⌋).toNat
      let x1 : Nat := min (x0 + 1) (srcWidth - 1)
      let y1 : Nat := min (y0 + 1) (srcHeight - 1)
      let xFrac : ℚ := srcX - (x0 : ℚ)
      let yFrac : ℚ := srcY - (y0 : ℚ)
      (List.range 4).map fun c =>
        let p00 : ℚ := (data.getD ((y0 * srcWidth + x0) * 4 + c) 0 : ℚ)
        let p10 : ℚ := (data.getD ((y0 * srcWidth + x1) * 4 + c) 0 : ℚ)
        let p01 : ℚ := (data.getD ((y1 * srcWidth + x0) * 4 + c) 0 : ℚ)
        let p11 : ℚ := (data.getD ((y1 * srcWidth + x1) * 4 + c) 0 : ℚ)
        let top := p00 * (1 - xFrac) + p10 * xFrac
        let bottom := p01 * (1 - xFrac) + p11 * xFrac
        rustTruncU8 (top * (1 - yFrac) + bottom * yFrac)

/-- Rust `u32` wrapping (release-mode) arithmetic result. -/
def u32 (n : Nat) : Nat := n % 4294967296

/-- `data[i]`: `None` models the Rust index panic. -/
def scaleRead (data : List Nat) (i : Nat) : Option Nat :=
  if i < data.length then some (data.getD i 0) else none

/-- `result[i] = v`: `None` models the Rust index panic. -/
def scaleWrite (res : List Nat) (i v : Nat) : Option (List Nat) :=
  if i < res.length then some (res.set i v) else none

/-- One iteration of the innermost channel loop of `scale_image`:
read the four corner bytes (u32 index arithmetic wraps, `as usize + c`
does not), compute the bilinear value with every `f32` operation
rounded, and write the output byte. -/
def scaleChannel (data : List Nat) (srcW x0 y0 x1 y1 : Nat) (xFrac yFrac : ℚ)
    (dstIdx : Nat) (res : List Nat) (c : Nat) : Option (List Nat) := do
  let p00 ← scaleRead data (u32 (u32 (u32 (y0 * srcW) + x0) * 4) + c)
  let p10 ← scaleRead data (u32 (u32 (u32 (y0 * srcW) + x1) * 4) + c)
  let p01 ← scaleRead data (u32 (u32 (u32 (y1 * srcW) + x0) * 4) + c)
  let p11 ← scaleRead data (u32 (u32 (u32 (y1 * srcW) + x1) * 4) + c)
  let top := floatRound (floatRound (floatRound (p00 : ℚ) *
      floatRound (1 - xFrac)) +
    floatRound (floatRound (p10 : ℚ) * xFrac))
  let bottom := floatRound (floatRound (floatRound (p01 : ℚ) *
      floatRound (1 - xFrac)) +
    floatRound (floatRound (p11 : ℚ) * xFrac))
  let value := floatRound (floatRound (top * floatRound (1 - yFrac)) +
    floatRound (bottom * yFrac))
  scaleWrite res (dstIdx + c) (rustTruncU8 value)

/-- One iteration of the per-pixel loop of `scale_image`: the sampled
source coordinates with `f32` rounding, the `as u32` saturating casts,
the wrapping `+ 1`/`- 1` neighbour clamps, and the wrapping output
index. -/
def scalePixel (data : List Nat) (srcW srcH dstW : Nat) (ratioX ratioY : ℚ)
    (dstY : Nat) (res : List Nat) (dstX : Nat) : Option (List Nat) :=
  let srcX := floatRound (floatRound (dstX : ℚ) * ratioX)
  let srcY := floatRound (floatRound (dstY : ℚ) * ratioY)
  let x0 := min (⌊srcX⌋).toNat 4294967295
  let y0 := min (⌊srcY⌋).toNat 4294967295
  let x1 := min (u32 (x0 + 1)) (u32 (srcW + 4294967295))
  let y1 := min (u32 (y0 + 1)) (u32 (srcH + 4294967295))
  let xFrac := floatRound (srcX - floatRound (x0 : ℚ))
  let yFrac := floatRound (srcY - floatRound (y0 : ℚ))
  let dstIdx := u32 (u32 (u32 (dstY * dstW) + dstX) * 4)
  (List.range 4).foldlM
    (scaleChannel data srcW x0 y0 x1 y1 xFrac yFrac dstIdx) res

/-- `scale_image` of kitty.rs, bit-faithful: `f32` operations rounded
through `floatRound`, `u32` size and index arithmetic wrapping
(release-mode semantics), float-to-int casts saturating, and every
slice access checked — `None` models a panic. -/
def scale_image_rs (data : List Nat) (srcW srcH dstW dstH : Nat) :
    Option (List Nat) :=
  let ratioX := floatRound (floatRound (srcW : ℚ) / floatRound (dstW : ℚ))
  let ratioY := floatRound (floatRound (srcH : ℚ) / floatRound (dstH : ℚ))
  let res0 : List Nat := List.replicate (u32 (u32 (dstW * dstH) * 4)) 0
  (List.range dstH).foldlM (fun res dstY =>
    (List.range dstW).foldlM (scalePixel data srcW srcH dstW ratioX ratioY dstY)
      res) res0

/-- The scale-to-fit step of `display_frame`: downscale when either
dimension exceeds the 1920×1080 ceiling, otherwise pass through. -/
def displayScale (width height : Nat) (data : List Nat) : List Nat × Nat × Nat :=
  if 1920 < width ∨ 1080 < height then
    let scale : ℚ := min ((1920 : ℚ) / (width : ℚ)) ((1080 : ℚ) / (height : ℚ))
    let newWidth := rustTruncU32 ((width : ℚ) * scale)
    let newHeight := rustTruncU32 ((height : ℚ) * scale)
    (scale_image data width height newWidth newHeight, newWidth, newHeight)
  else
    (data, width, height)

/-- `display_frame` as the sequence of graphics chunks it writes:
scale to fit, base64-encode, split into 4096-character chunks, attach
parameters to the first chunk and more-flags to all. -/
def display_frame (width height : Nat) (rgbaData : List Nat) (imageId : Nat) :
    List GChunk :=
  let scaled := displayScale width height rgbaData
  mkChunks scaled.2.1 scaled.2.2 imageId true (chunks4096 (b64encode scaled.1))

/-! ### Frame capture (compositor/state.rs) -/

/-- `FrameData`: a captured frame, RGBA bytes tightly packed. -/
structure FrameData where
  width : Nat
  height : Nat
  data : List Nat
deriving DecidableEq, Repr

/-- A client shm buffer: the pool bytes and the buffer's geometry
within the pool. -/
structure ShmBuffer where
  pool : List Nat
  offset : Nat
  width : Nat
  height : Nat
  stride : Nat
deriving DecidableEq, Repr

/-- The body of the `with_buffer_contents` closure in `capture_frame`:
bounds-check the buffer window, then convert XRGB8888 (memory order
B, G, R, X) to RGBA, skipping pixels whose four bytes would run past
the buffer window. -/
def captureBufferContents (buf : ShmBuffer) : FrameData :=
  let poolLen := buf.pool.length
  let bufferSize := buf.height * buf.stride
  if buf.offset + bufferSize > poolLen then
    ⟨0, 0, []⟩
  else
    let rgba := (List.range buf.height).flatMap fun y =>
      (List.range buf.width).flatMap fun x =>
        let pixelOffset := y * buf.stride + x * 4
        if pixelOffset + 4 ≤ bufferSize then
          [buf.pool.getD (buf.offset + pixelOffset + 2) 0,
           buf.pool.getD (buf.offset + pixelOffset + 1) 0,
           buf.pool.getD (buf.offset + pixelOffset) 0,
           buf.pool.getD (buf.offset + pixelOffset + 3) 0]
        else []
    ⟨buf.width, buf.height, rgba⟩

/-- `capture_frame`: `None` when no buffer is attached, otherwise the
converted contents. -/
def capture_frame (attached : Option ShmBuffer) : Option FrameData :=
  attached.map captureBufferContents

/-- The frame-related part of the `commit` handler: if capture produced
a frame, overwrite the pending-frame slot with it. -/
def commitCapture (pendingFrame : Option FrameData) (attached : Option ShmBuffer) :
    Option FrameData :=
  match capture_frame attached with
  | some frameData => some frameData
  | none => pendingFrame

/-- Writing the pending-frame slot (`*self.pending_frame.lock() = Some(f)`). -/
def slotWrite (_slot : Option FrameData) (frame : FrameData) : Option FrameData :=
  some frame

/-- Taking the pending frame (`pending_frame.lock().take()` in the
frame-timer callback): returns the taken value and the emptied slot. -/
def slotTake (slot : Option FrameData) : Option FrameData × Option FrameData :=
  (slot, none)

/-- The frames held by the slot, as a list. -/
def slotFrames : Option FrameData → List FrameData := Option.toList

/-! ### Input translator (terminal/input.rs) -/

/-- Crossterm key codes used by the translator. -/
inductive KeyCode where
  | char (c : Char)
  | enter | tab | backspace | esc
  | left | right | up | down
  | home | endKey | pageUp | pageDown | insert | delete
  | fKey (n : Nat)
  | other
deriving DecidableEq, Repr

/-- The modifier bits the translator inspects. -/
structure KeyModifiers where
  control : Bool
  shift : Bool
  alt : Bool
deriving DecidableEq, Repr

/-- Crossterm key event kinds. -/
inductive KeyEventKind where
  | press | repeatKind | release
deriving DecidableEq, Repr

inductive TermMouseButton where
  | left | right | middle
deriving DecidableEq, Repr

inductive TermMouseEventKind where
  | down (button : TermMouseButton)
  | up (button : TermMouseButton)
  | drag (button : TermMouseButton)
  | moved
  | scrollDown | scrollUp | scrollLeft | scrollRight
deriving DecidableEq, Repr

/-- Crossterm events relevant to `translate_event`. -/
inductive TermEvent where
  | key (code : KeyCode) (modifiers : KeyModifiers) (kind : KeyEventKind)
  | mouse (kind : TermMouseEventKind) (column : Nat) (row : Nat)
  | resize (cols : Nat) (rows : Nat)
  | other
deriving DecidableEq, Repr

inductive KeyState where
  | pressed | released
deriving DecidableEq, Repr

inductive ButtonState where
  | pressed | released
deriving DecidableEq, Repr

/-- Compositor-side input events produced by the translator. -/
inductive WaylandInputEvent where
  | pointerMotion (x y : ℚ) (time : Nat)
  | pointerButton (button : Nat) (state : ButtonState) (time : Nat)
  | pointerAxis (horizontal vertical : ℚ) (time : Nat)
  | keyboardKey (keysym : Nat) (state : KeyState) (time : Nat)
  | resize (width height : Nat)
  | quit
deriving DecidableEq, Repr

/-- The translator's dimension state. -/
structure TerminalInput where
  termWidth : Nat
  termHeight : Nat
  pixelWidth : Nat
  pixelHeight : Nat
deriving DecidableEq, Repr

/-- `cell_to_pixel`: the center of the terminal cell, `f64` arithmetic
modelled exactly on `ℚ`. -/
def cell_to_pixel (ti : TerminalInput) (col row : Nat) : ℚ × ℚ :=
  let cellWidth : ℚ := (ti.pixelWidth : ℚ) / (ti.termWidth : ℚ)
  let cellHeight : ℚ := (ti.pixelHeight : ℚ) / (ti.termHeight : ℚ)
  ((col : ℚ) * cellWidth + cellWidth / 2, (row : ℚ) * cellHeight + cellHeight / 2)

/-- `keycode_to_keysym`: character keys map to their codepoint (ASCII)
or `0x01000000 + codepoint`; named keys map to fixed keysym constants. -/
def keycode_to_keysym : KeyCode → Option Nat
  | .char c =>
      let code := c.toNat
      if code < 128 then some code else some (0x01000000 + code)
  | .enter => some 0xff0d
  | .tab => some 0xff09
  | .backspace => some 0xff08
  | .esc => some 0xff1b
  | .left => some 0xff51
  | .right => some 0xff53
  | .up => some 0xff52
  | .down => some 0xff54
  | .home => some 0xff50
  | .endKey => some 0xff57
  | .pageUp => some 0xff55
  | .pageDown => some 0xff56
  | .insert => some 0xff63
  | .delete => some 0xffff
  | .fKey n => some (0xffbe + (n - 1))
  | .other => none

/-- `mouse_button_to_code`: the fixed Left/Right/Middle mapping. -/
def mouse_button_to_code : TermMouseButton → Nat
  | .left => 0x110
  | .right => 0x111
  | .middle => 0x112

/-- `translate_event`; the wall-clock timestamp and the result of the
terminal pixel-size query (used only by the resize arm) are passed in
as parameters. -/
def translate_event (ti : TerminalInput) (time : Nat)
    (querySizePixels : Option (Nat × Nat)) : TermEvent → Option WaylandInputEvent
  | .key code mods kind =>
      if code = KeyCode.char 'c' ∧ mods.control = true then
        some .quit
      else if code = KeyCode.char 'q' ∧ mods.control = true then
        some .quit
      else
        match keycode_to_keysym code with
        | none => none
        | some keysym =>
          let state := match kind with
            | .press | .repeatKind => KeyState.pressed
            | .release => KeyState.released
          some (.keyboardKey keysym state time)
  | .mouse kind column row =>
      let xy := cell_to_pixel ti column row
      match kind with
      | .moved | .drag _ => some (.pointerMotion xy.1 xy.2 time)
      | .down button =>
          some (.pointerButton (mouse_button_to_code button) .pressed time)
      | .up button =>
          some (.pointerButton (mouse_button_to_code button) .released time)
      | .scrollDown => some (.pointerAxis 0 15 time)
      | .scrollUp => some (.pointerAxis 0 (-15) time)
      | .scrollLeft => some (.pointerAxis (-15) 0 time)
      | .scrollRight => some (.pointerAxis 15 0 time)
  | .resize cols rows =>
      let wh := querySizePixels.getD (cols * 10, rows * 20)
      some (.resize wh.1 wh.2)
  | .other => none

/-! ### Physical key-code derivation (main.rs) -/

/-- The character arm of the evdev match in `keysym_to_keycode`
(`c if c < 128`): US-QWERTY codes for printable ASCII, written on the
ASCII codepoints the Rust `char` patterns denote. -/
def asciiEvdev (code : Nat) : Nat :=
  if code = 0x31 ∨ code = 0x21 then 2        -- digit 1, exclamation mark
  else if code = 0x32 ∨ code = 0x40 then 3   -- digit 2, at sign
  else if code = 0x33 ∨ code = 0x23 then 4   -- digit 3, number sign
  else if code = 0x34 ∨ code = 0x24 then 5   -- digit 4, dollar sign
  else if code = 0x35 ∨ code = 0x25 then 6   -- digit 5, percent sign
  else if code = 0x36 ∨ code = 0x5e then 7   -- digit 6, caret
  else if code = 0x37 ∨ code = 0x26 then 8   -- digit 7, ampersand
  else if code = 0x38 ∨ code = 0x2a then 9   -- digit 8, asterisk
  else if code = 0x39 ∨ code = 0x28 then 10  -- digit 9, left paren
  else if code = 0x30 ∨ code = 0x29 then 11  -- digit 0, right paren
  else if code = 0x2d ∨ code = 0x5f then 12  -- hyphen, underscore
  else if code = 0x3d ∨ code = 0x2b then 13  -- equals, plus
  else if code = 0x71 ∨ code = 0x51 then 16  -- letter q
  else if code = 0x77 ∨ code = 0x57 then 17  -- letter w
  else if code = 0x65 ∨ code = 0x45 then 18  -- letter e
  else if code = 0x72 ∨ code = 0x52 then 19  -- letter r
  else if code = 0x74 ∨ code = 0x54 then 20  -- letter t
  else if code = 0x79 ∨ code = 0x59 then 21  -- letter y
  else if code = 0x75 ∨ code = 0x55 then 22  -- letter u
  else if code = 0x69 ∨ code = 0x49 then 23  -- letter i
  else if code = 0x6f ∨ code = 0x4f then 24  -- letter o
  else if code = 0x70 ∨ code = 0x50 then 25  -- letter p
  else if code = 0x5b ∨ code = 0x7b then 26  -- left bracket, left brace
  else if code = 0x5d ∨ code = 0x7d then 27  -- right bracket, right brace
  else if code = 0x61 ∨ code = 0x41 then 30  -- letter a
  else if code = 0x73 ∨ code = 0x53 then 31  -- letter s
  else if code = 0x64 ∨ code = 0x44 then 32  -- letter d
  else if code = 0x66 ∨ code = 0x46 then 33  -- letter f
  else if code = 0x67 ∨ code = 0x47 then 34  -- letter g
  else if code = 0x68 ∨ code = 0x48 then 35  -- letter h
  else if code = 0x6a ∨ code = 0x4a then 36  -- letter j
  else if code = 0x6b ∨ code = 0x4b then 37  -- letter k
  else if code = 0x6c ∨ code = 0x4c then 38  -- letter l
  else if code = 0x3b ∨ code = 0x3a then 39  -- semicolon, colon
  else if code = 0x27 ∨ code = 0x22 then 40  -- apostrophe, double quote
  else if code = 0x60 ∨ code = 0x7e then 41  -- grave accent, tilde
  else if code = 0x5c ∨ code = 0x7c then 43  -- backslash, vertical bar
  else if code = 0x7a ∨ code = 0x5a then 44  -- letter z
  else if code = 0x78 ∨ code = 0x58 then 45  -- letter x
  else if code = 0x63 ∨ code = 0x43 then 46  -- letter c
  else if code = 0x76 ∨ code = 0x56 then 47  -- letter v
  else if code = 0x62 ∨ code = 0x42 then 48  -- letter b
  else if code = 0x6e ∨ code = 0x4e then 49  -- letter n
  else if code = 0x6d ∨ code = 0x4d then 50  -- letter m
  else if code = 0x2c ∨ code = 0x3c then 51  -- comma, less than
  else if code = 0x2e ∨ code = 0x3e then 52  -- period, greater than
  else if code = 0x2f ∨ code = 0x3f then 53  -- slash, question mark
  else 0

/-- The evdev-code match of `keysym_to_keycode`: named keysyms first,
then the ASCII arm, default 0. -/
def evdevCode (raw : Nat) : Nat :=
  if raw = 0xff1b then 1          -- Escape
  else if raw = 0xff0d then 28    -- Return
  else if raw = 0xff09 then 15    -- Tab
  else if raw = 0xff08 then 14    -- BackSpace
  else if raw = 0x20 then 57      -- space
  else if raw = 0xff51 then 105   -- Left
  else if raw = 0xff53 then 106   -- Right
  else if raw = 0xff52 then 103   -- Up
  else if raw = 0xff54 then 108   -- Down
  else if raw = 0xff50 then 102   -- Home
  else if raw = 0xff57 then 107   -- End
  else if raw = 0xff55 then 104   -- Page_Up
  else if raw = 0xff56 then 109   -- Page_Down
  else if raw = 0xff63 then 110   -- Insert
  else if raw = 0xffff then 111   -- Delete
  else if raw < 128 then asciiEvdev raw
  else 0

/-- `keysym_to_keycode`: XKB keycode = evdev keycode + 8. -/
def keysym_to_keycode (keysym : Nat) : Nat := evdevCode keysym + 8

/-- The static US-QWERTY table as (keysym, evdev code) pairs: every
match arm of `keysym_to_keycode` that yields a nonzero evdev code. -/
def usQwertyTable : List (Nat × Nat) :=
  [(0xff1b, 1), (0xff0d, 28), (0xff09, 15), (0xff08, 14), (0x20, 57),
   (0xff51, 105), (0xff53, 106), (0xff52, 103), (0xff54, 108),
   (0xff50, 102), (0xff57, 107), (0xff55, 104), (0xff56, 109),
   (0xff63, 110), (0xffff, 111),
   (0x31, 2), (0x21, 2), (0x32, 3), (0x40, 3), (0x33, 4), (0x23, 4),
   (0x34, 5), (0x24, 5), (0x35, 6), (0x25, 6), (0x36, 7), (0x5e, 7),
   (0x37, 8), (0x26, 8), (0x38, 9), (0x2a, 9), (0x39, 10), (0x28, 10),
   (0x30, 11), (0x29, 11), (0x2d, 12), (0x5f, 12), (0x3d, 13), (0x2b, 13),
   (0x71, 16), (0x51, 16), (0x77, 17), (0x57, 17), (0x65, 18), (0x45, 18),
   (0x72, 19), (0x52, 19), (0x74, 20), (0x54, 20), (0x79, 21), (0x59, 21),
   (0x75, 22), (0x55, 22), (0x69, 23), (0x49, 23), (0x6f, 24), (0x4f, 24),
   (0x70, 25), (0x50, 25), (0x5b, 26), (0x7b, 26), (0x5d, 27), (0x7d, 27),
   (0x61, 30), (0x41, 30), (0x73, 31), (0x53, 31), (0x64, 32), (0x44, 32),
   (0x66, 33), (0x46, 33), (0x67, 34), (0x47, 34), (0x68, 35), (0x48, 35),
   (0x6a, 36), (0x4a, 36), (0x6b, 37), (0x4b, 37), (0x6c, 38), (0x4c, 38),
   (0x3b, 39), (0x3a, 39), (0x27, 40), (0x22, 40), (0x60, 41), (0x7e, 41),
   (0x5c, 43), (0x7c, 43),
   (0x7a, 44), (0x5a, 44), (0x78, 45), (0x58, 45), (0x63, 46), (0x43, 46),
   (0x76, 47), (0x56, 47), (0x62, 48), (0x42, 48), (0x6e, 49), (0x4e, 49),
   (0x6d, 50), (0x4d, 50), (0x2c, 51), (0x3c, 51), (0x2e, 52), (0x3e, 52),
   (0x2f, 53), (0x3f, 53)]

/-- The keysyms present in the table. -/
def usQwertyKeys : List Nat := usQwertyTable.map Prod.fst

/-! ### Toplevel lifecycle and run flag (compositor/state.rs, main.rs) -/

/-- The part of `TermuiState` that `toplevel_destroyed` touches:
the tracked toplevels (as opaque ids), the `running` flag, and whether
`loop_signal.stop()` has been called. -/
structure LoopState where
  toplevels : List Nat
  running : Bool
  stopRequested : Bool
deriving DecidableEq, Repr

/-- `toplevel_destroyed`: retain all toplevels different from the
destroyed one; if none remain, clear `running` and signal the loop. -/
def toplevel_destroyed (s : LoopState) (surface : Nat) : LoopState :=
  let toplevels := s.toplevels.filter (fun tl => tl ≠ surface)
  if toplevels.isEmpty then
    { toplevels := toplevels, running := false, stopRequested := true }
  else
    { s with toplevels := toplevels }

/-! ### Base64 lemmas -/

set_option maxRecDepth 4000

theorem b64val_b64char : ∀ n < 64, b64val (b64char n) = n := by decide

theorem b64char_ne_pad : ∀ n < 64, b64char n ≠ '=' := by decide

theorem b64decode_encode : ∀ (bs : List Nat), (∀ b ∈ bs, b < 256) →
    b64decode (b64encode bs) = bs
  | [], _ => rfl
  | [a], h => by
      have ha : a < 256 := h a (by simp)
      have h1 := b64char_ne_pad (a / 4) (by omega)
      have h2 := b64char_ne_pad (a % 4 * 16) (by omega)
      simp [b64encode, b64decode, List.filter, h1, h2,
        b64val_b64char (a / 4) (by omega), b64val_b64char (a % 4 * 16) (by omega),
        b64decodeCore]
      omega
  | [a, b], h => by
      have ha : a < 256 := h a (by simp)
      have hb : b < 256 := h b (by simp)
      have h1 := b64char_ne_pad (a / 4) (by omega)
      have h2 := b64char_ne_pad (a % 4 * 16 + b / 16) (by omega)
      have h3 := b64char_ne_pad (b % 16 * 4) (by omega)
      simp [b64encode, b64decode, List.filter, h1, h2, h3,
        b64val_b64char (a / 4) (by omega),
        b64val_b64char (a % 4 * 16 + b / 16) (by omega),
        b64val_b64char (b % 16 * 4) (by omega), b64decodeCore]
      omega
  | a :: b :: c :: rest, h => by
      have ha : a < 256 := h a (by simp)
      have hb : b < 256 := h b (by simp)
      have hc : c < 256 := h c (by simp)
      have hrest : b64decode (b64encode rest) = rest :=
        b64decode_encode rest (fun x hx => h x (by simp [hx]))
      have h1 := b64char_ne_pad (a / 4) (by omega)
      have h2 := b64char_ne_pad (a % 4 * 16 + b / 16) (by omega)
      have h3 := b64char_ne_pad (b % 16 * 4 + c / 64) (by omega)
      have h4 := b64char_ne_pad (c % 64) (by omega)
      simp only [b64decode, b64encode, List.filter_cons, h1, h2, h3, h4,
        decide_not, List.map_cons, b64decodeCore] at hrest ⊢
      rw [b64val_b64char (a / 4) (by omega),
        b64val_b64char (a % 4 * 16 + b / 16) (by omega),
        b64val_b64char (b % 16 * 4 + c / 64) (by omega),
        b64val_b64char (c % 64) (by omega), hrest]
      simp only [List.cons.injEq]
      refine ⟨by omega, by omega, by omega, trivial⟩

theorem b64encode_ne_nil (a : Nat) (rest : List Nat) : b64encode (a :: rest) ≠ [] := by
  cases rest with
  | nil => simp [b64encode]
  | cons b rest2 => cases rest2 <;> simp [b64encode]

/-! ### f32 rounding lemmas -/

theorem floatRound_zero : floatRound 0 = 0 := by simp [floatRound]

/-- The computed exponent is a lower witness: `2 ^ rexp q ≤ q`. -/
theorem rexp_lower (q : ℚ) (hq : 0 < q) : (2 : ℚ) ^ rexp q ≤ q := by
  have hnum0 : 0 < q.num := Rat.num_pos.mpr hq
  have hA0 : q.num.toNat ≠ 0 := by omega
  have hnum : (2 : ℚ) ^ Nat.log2 q.num.toNat ≤ (q.num.toNat : ℚ) := by
    exact_mod_cast Nat.log2_self_le hA0
  have hden : (q.den : ℚ) < 2 ^ (Nat.log2 q.den + 1) := by
    exact_mod_cast Nat.lt_log2_self
  have hden0 : (0 : ℚ) < (q.den : ℚ) := by exact_mod_cast q.den_pos
  have hqeq : q = (q.num.toNat : ℚ) / (q.den : ℚ) := by
    rw [show ((q.num.toNat : ℕ) : ℚ) = ((q.num.toNat : ℤ) : ℚ) by push_cast; ring,
      Int.toNat_of_nonneg (le_of_lt hnum0), Rat.num_div_den]
  have hlow : (2 : ℚ) ^ ((Nat.log2 q.num.toNat : ℤ) - (Nat.log2 q.den : ℤ) - 1) ≤ q := by
    have hfrac : (2 : ℚ) ^ (Nat.log2 q.num.toNat) / 2 ^ (Nat.log2 q.den + 1) ≤
        (q.num.toNat : ℚ) / (q.den : ℚ) :=
      div_le_div₀ (by positivity) hnum hden0 (le_of_lt hden)
    calc (2 : ℚ) ^ ((Nat.log2 q.num.toNat : ℤ) - (Nat.log2 q.den : ℤ) - 1) =
          (2 : ℚ) ^ ((Nat.log2 q.num.toNat : ℤ)) /
            (2 : ℚ) ^ ((Nat.log2 q.den : ℤ) + 1) := by
            rw [← zpow_sub₀ (two_ne_zero)]
            ring_nf
      _ = (2 : ℚ) ^ (Nat.log2 q.num.toNat) / 2 ^ (Nat.log2 q.den + 1) := by
            rw [zpow_natCast, show ((Nat.log2 q.den : ℤ) + 1) =
              ((Nat.log2 q.den + 1 : ℕ) : ℤ) by push_cast; ring, zpow_natCast]
      _ ≤ (q.num.toNat : ℚ) / (q.den : ℚ) := hfrac
      _ = q := hqeq.symm
  rw [rexp]
  by_cases hcmp : q < 2 ^ ((Nat.log2 q.num.toNat : ℤ) - (Nat.log2 q.den : ℤ))
  · rw [if_pos hcmp]
    exact hlow
  · rw [if_neg hcmp]
    exact le_of_not_lt hcmp

/-- Nearest-integer rounding (ties to even) moves a value by at most 1/2. -/
theorem roundNearest_dist (s : ℚ) :
    |(((if s - (⌊s⌋ : ℚ) < 1 / 2 then ⌊s⌋
        else if 1 / 2 < s - (⌊s⌋ : ℚ) then ⌊s⌋ + 1
        else if ⌊s⌋ % 2 = 0 then ⌊s⌋ else ⌊s⌋ + 1) : ℤ) : ℚ) - s| ≤ 1 / 2 := by
  have h1 : (⌊s⌋ : ℚ) ≤ s := Int.floor_le s
  have h2 : s < (⌊s⌋ : ℚ) + 1 := Int.lt_floor_add_one s
  by_cases hc1 : s - (⌊s⌋ : ℚ) < 1 / 2
  · rw [if_pos hc1, abs_sub_le_iff]
    constructor <;> linarith
  · rw [if_neg hc1]
    by_cases hc2 : 1 / 2 < s - (⌊s⌋ : ℚ)
    · rw [if_pos hc2, abs_sub_le_iff]
      push_cast
      constructor <;> linarith
    · rw [if_neg hc2]
      by_cases hc3 : ⌊s⌋ % 2 = 0
      · rw [if_pos hc3, abs_sub_le_iff]
        constructor <;> linarith
      · rw [if_neg hc3, abs_sub_le_iff]
        push_cast
        constructor <;> linarith

/-- Relative-error bound of one `f32` rounding: half an ulp, at most
`q / 2 ^ 24` for positive `q`. -/
theorem floatRoundPos_bounds (q : ℚ) (hq : 0 < q) :
    q * (1 - 1 / 16777216) ≤ floatRoundPos q ∧
    floatRoundPos q ≤ q * (1 + 1 / 16777216) := by
  have he := rexp_lower q hq
  have hdist := roundNearest_dist (q * 2 ^ ((23 : ℤ) - rexp q))
  have hppos : (0 : ℚ) < 2 ^ (rexp q - (23 : ℤ)) := zpow_pos (by norm_num) _
  have hq_eq : (q * 2 ^ ((23 : ℤ) - rexp q)) * 2 ^ (rexp q - (23 : ℤ)) = q := by
    rw [mul_assoc, ← zpow_add₀ (two_ne_zero : (2 : ℚ) ≠ 0)]
    norm_num
  have hkey : |floatRoundPos q - q| ≤ q / 16777216 := by
    have hstep : |floatRoundPos q - q| ≤ 1 / 2 * 2 ^ (rexp q - (23 : ℤ)) := by
      simp only [floatRoundPos]
      generalize hr : (if q * 2 ^ ((23 : ℤ) - rexp q) -
          (⌊q * 2 ^ ((23 : ℤ) - rexp q)⌋ : ℚ) < 1 / 2 then
            ⌊q * 2 ^ ((23 : ℤ) - rexp q)⌋
          else if 1 / 2 < q * 2 ^ ((23 : ℤ) - rexp q) -
              (⌊q * 2 ^ ((23 : ℤ) - rexp q)⌋ : ℚ) then
            ⌊q * 2 ^ ((23 : ℤ) - rexp q)⌋ + 1
          else if ⌊q * 2 ^ ((23 : ℤ) - rexp q)⌋ % 2 = 0 then
            ⌊q * 2 ^ ((23 : ℤ) - rexp q)⌋
          else ⌊q * 2 ^ ((23 : ℤ) - rexp q)⌋ + 1) = r at hdist ⊢
      have hsplit : ((r : ℚ)) * 2 ^ (rexp q - (23 : ℤ)) - q =
          ((r : ℚ) - q * 2 ^ ((23 : ℤ) - rexp q)) * 2 ^ (rexp q - (23 : ℤ)) := by
        rw [sub_mul, hq_eq]
      rw [hsplit, abs_mul, abs_of_pos hppos]
      exact mul_le_mul_of_nonneg_right hdist (le_of_lt hppos)
    have hulp : 1 / 2 * (2 : ℚ) ^ (rexp q - (23 : ℤ)) ≤ q / 16777216 := by
      have h24 : 1 / 2 * (2 : ℚ) ^ (rexp q - (23 : ℤ)) =
          2 ^ rexp q * (1 / 16777216) := by
        rw [zpow_sub₀ (two_ne_zero : (2 : ℚ) ≠ 0)]
        norm_num
        ring
      calc 1 / 2 * (2 : ℚ) ^ (rexp q - (23 : ℤ)) =
            2 ^ rexp q * (1 / 16777216) := h24
        _ ≤ q * (1 / 16777216) := mul_le_mul_of_nonneg_right he (by norm_num)
        _ = q / 16777216 := by ring
    exact le_trans hstep hulp
  rw [abs_sub_le_iff] at hkey
  constructor <;> nlinarith [hkey.1, hkey.2]

/-- `f32` rounding bounds for nonnegative inputs. -/
theorem floatRound_bounds (q : ℚ) (hq : 0 ≤ q) :
    q * (1 - 1 / 16777216) ≤ floatRound q ∧
    floatRound q ≤ q * (1 + 1 / 16777216) := by
  rcases eq_or_lt_of_le hq with heq | hpos
  · rw [floatRound, if_pos heq.symm, ← heq]
    norm_num
  · rw [floatRound, if_neg (ne_of_gt hpos), if_pos hpos]
    exact floatRoundPos_bounds q hpos

theorem floatRound_nonneg (q : ℚ) (hq : 0 ≤ q) : 0 ≤ floatRound q := by
  have h := (floatRound_bounds q hq).1
  nlinarith

/-- Dyadic rationals with at most 24 significand bits round to
themselves. -/
theorem floatRound_dyadic (m : ℕ) (k : ℤ) (hm : 0 < m) (hlt : m < 16777216) :
    floatRound ((m : ℚ) * 2 ^ k) = (m : ℚ) * 2 ^ k := by
  have hqpos : (0 : ℚ) < (m : ℚ) * 2 ^ k := by
    have : (0 : ℚ) < (m : ℚ) := by exact_mod_cast hm
    exact mul_pos this (zpow_pos (by norm_num) _)
  rw [floatRound, if_neg (ne_of_gt hqpos), if_pos hqpos]
  have he := rexp_lower ((m : ℚ) * 2 ^ k) hqpos
  have hup : (m : ℚ) * 2 ^ k < 2 ^ (k + 24) := by
    rw [zpow_add₀ (two_ne_zero : (2 : ℚ) ≠ 0)]
    have hmq : (m : ℚ) < 16777216 := by exact_mod_cast hlt
    calc (m : ℚ) * 2 ^ k < 16777216 * 2 ^ k :=
          mul_lt_mul_of_pos_right hmq (zpow_pos (by norm_num) _)
      _ = 2 ^ k * 2 ^ (24 : ℤ) := by norm_num; ring
  have hek : rexp ((m : ℚ) * 2 ^ k) ≤ k + 23 := by
    by_contra hcon
    push_neg at hcon
    have h1 : (2 : ℚ) ^ (k + 24) ≤ 2 ^ rexp ((m : ℚ) * 2 ^ k) :=
      zpow_le_zpow_right₀ (by norm_num) (by omega)
    linarith
  have hexp0 : (0 : ℤ) ≤ k + (23 : ℤ) - rexp ((m : ℚ) * 2 ^ k) := by omega
  have hscaled : ((m : ℚ) * 2 ^ k) * 2 ^ ((23 : ℤ) - rexp ((m : ℚ) * 2 ^ k)) =
      ((m * 2 ^ (k + (23 : ℤ) - rexp ((m : ℚ) * 2 ^ k)).toNat : ℕ) : ℚ) := by
    push_cast
    rw [mul_assoc, ← zpow_add₀ (two_ne_zero : (2 : ℚ) ≠ 0),
      ← zpow_natCast (2 : ℚ) (k + (23 : ℤ) - rexp ((m : ℚ) * 2 ^ k)).toNat,
      Int.toNat_of_nonneg hexp0,
      show k + ((23 : ℤ) - rexp ((m : ℚ) * 2 ^ k)) =
        k + (23 : ℤ) - rexp ((m : ℚ) * 2 ^ k) from by ring]
  simp only [floatRoundPos, hscaled, Int.floor_natCast, Int.cast_natCast]
  rw [sub_self, if_pos (by norm_num : (0 : ℚ) < 1 / 2)]
  rw [Int.cast_natCast, ← hscaled, mul_assoc,
    ← zpow_add₀ (two_ne_zero : (2 : ℚ) ≠ 0)]
  norm_num

/-- The sampled source coordinate
`fl(fl(i) * fl(fl(src) / fl(dst)))` stays inside `[0, src)` for
destinations up to the display ceiling: four roundings lose at most a
relative `(1 + 2⁻²⁴)⁴ / (1 - 2⁻²⁴)`, far less than the `1/dst ≥ 1/1920`
margin left by `i ≤ dst - 1`. -/
theorem sampled_coord_bounds (src dst i : Nat) (hsrc : 1 ≤ src) (hi : i < dst)
    (hdst : dst ≤ 1920) :
    0 ≤ floatRound (floatRound (i : ℚ) *
      floatRound (floatRound (src : ℚ) / floatRound (dst : ℚ))) ∧
    floatRound (floatRound (i : ℚ) *
      floatRound (floatRound (src : ℚ) / floatRound (dst : ℚ))) < (src : ℚ) := by
  have hdst1 : 1 ≤ dst := by omega
  have hsq : (0 : ℚ) < (src : ℚ) := by exact_mod_cast hsrc
  have hdq1 : (1 : ℚ) ≤ (dst : ℚ) := by exact_mod_cast hdst1
  have hdq : (dst : ℚ) ≤ 1920 := by exact_mod_cast hdst
  have hiq : (i : ℚ) + 1 ≤ (dst : ℚ) := by exact_mod_cast hi
  have ha := floatRound_bounds (src : ℚ) (le_of_lt hsq)
  have ha0 := floatRound_nonneg (src : ℚ) (le_of_lt hsq)
  have hb := floatRound_bounds (dst : ℚ) (by linarith)
  have hbpos : (0 : ℚ) < floatRound (dst : ℚ) := by nlinarith [hb.1]
  have hDpos : (0 : ℚ) < (dst : ℚ) * (1 - 1 / 16777216) := by nlinarith
  have hr0 : (0 : ℚ) ≤ floatRound (src : ℚ) / floatRound (dst : ℚ) :=
    div_nonneg ha0 (le_of_lt hbpos)
  have hr0up : floatRound (src : ℚ) / floatRound (dst : ℚ) ≤
      ((src : ℚ) * (1 + 1 / 16777216)) / ((dst : ℚ) * (1 - 1 / 16777216)) :=
    div_le_div₀ (by nlinarith) ha.2 hDpos hb.1
  have hr := floatRound_bounds (floatRound (src : ℚ) / floatRound (dst : ℚ)) hr0
  have hrn := floatRound_nonneg (floatRound (src : ℚ) / floatRound (dst : ℚ)) hr0
  have hx := floatRound_bounds (i : ℚ) (by positivity)
  have hxn := floatRound_nonneg (i : ℚ) (by positivity)
  have hm0 : (0 : ℚ) ≤ floatRound (i : ℚ) *
      floatRound (floatRound (src : ℚ) / floatRound (dst : ℚ)) :=
    mul_nonneg hxn hrn
  have hsrcX := floatRound_bounds (floatRound (i : ℚ) *
    floatRound (floatRound (src : ℚ) / floatRound (dst : ℚ))) hm0
  refine ⟨floatRound_nonneg _ hm0, ?_⟩
  -- chain all four relative errors into one product bound
  have hmul : floatRound (i : ℚ) *
      floatRound (floatRound (src : ℚ) / floatRound (dst : ℚ)) ≤
      ((i : ℚ) * (1 + 1 / 16777216)) *
        ((((src : ℚ) * (1 + 1 / 16777216)) /
          ((dst : ℚ) * (1 - 1 / 16777216))) * (1 + 1 / 16777216)) := by
    have hr2 : floatRound (floatRound (src : ℚ) / floatRound (dst : ℚ)) ≤
        (((src : ℚ) * (1 + 1 / 16777216)) /
          ((dst : ℚ) * (1 - 1 / 16777216))) * (1 + 1 / 16777216) :=
      le_trans hr.2 (mul_le_mul_of_nonneg_right hr0up (by norm_num))
    exact mul_le_mul hx.2 hr2 hrn (by positivity)
  have hchain : floatRound (floatRound (i : ℚ) *
      floatRound (floatRound (src : ℚ) / floatRound (dst : ℚ))) ≤
      (((i : ℚ) * (1 + 1 / 16777216)) *
        ((((src : ℚ) * (1 + 1 / 16777216)) /
          ((dst : ℚ) * (1 - 1 / 16777216))) * (1 + 1 / 16777216))) *
        (1 + 1 / 16777216) :=
    le_trans hsrcX.2 (mul_le_mul_of_nonneg_right hmul (by norm_num))
  have hregroup : (((i : ℚ) * (1 + 1 / 16777216)) *
      ((((src : ℚ) * (1 + 1 / 16777216)) /
        ((dst : ℚ) * (1 - 1 / 16777216))) * (1 + 1 / 16777216))) *
      (1 + 1 / 16777216) =
      ((i : ℚ) * (1 + 1 / 16777216) ^ 4) *
        ((src : ℚ) / ((dst : ℚ) * (1 - 1 / 16777216))) := by
    field_simp
    ring
  have hkey : (i : ℚ) * (1 + 1 / 16777216) ^ 4 <
      (dst : ℚ) * (1 - 1 / 16777216) := by
    have hC4 : ((1 : ℚ) + 1 / 16777216) ^ 4 ≤ 1 + 5 / 16777216 := by norm_num
    have hstep1 : (i : ℚ) * (1 + 1 / 16777216) ^ 4 ≤
        ((dst : ℚ) - 1) * (1 + 5 / 16777216) := by
      have hi0 : (0 : ℚ) ≤ (i : ℚ) := by positivity
      have := mul_le_mul (by linarith : (i : ℚ) ≤ (dst : ℚ) - 1) hC4
        (by positivity) (by linarith)
      linarith
    nlinarith
  have hfinal : ((i : ℚ) * (1 + 1 / 16777216) ^ 4) *
      ((src : ℚ) / ((dst : ℚ) * (1 - 1 / 16777216))) < (src : ℚ) := by
    have hfpos : (0 : ℚ) < (src : ℚ) / ((dst : ℚ) * (1 - 1 / 16777216)) :=
      div_pos hsq hDpos
    calc ((i : ℚ) * (1 + 1 / 16777216) ^ 4) *
        ((src : ℚ) / ((dst : ℚ) * (1 - 1 / 16777216))) <
          ((dst : ℚ) * (1 - 1 / 16777216)) *
            ((src : ℚ) / ((dst : ℚ) * (1 - 1 / 16777216))) :=
          mul_lt_mul_of_pos_right hkey hfpos
      _ = (src : ℚ) := by
          field_simp
          ring
  calc floatRound (floatRound (i : ℚ) *
      floatRound (floatRound (src : ℚ) / floatRound (dst : ℚ))) ≤
        (((i : ℚ) * (1 + 1 / 16777216)) *
          ((((src : ℚ) * (1 + 1 / 16777216)) /
            ((dst : ℚ) * (1 - 1 / 16777216))) * (1 + 1 / 16777216))) *
          (1 + 1 / 16777216) := hchain
    _ = ((i : ℚ) * (1 + 1 / 16777216) ^ 4) *
        ((src : ℚ) / ((dst : ℚ) * (1 - 1 / 16777216))) := hregroup
    _ < (src : ℚ) := hfinal

/-- The saturated `as u32` cast of the sampled coordinate stays below
the source size. -/
theorem sampled_x0_lt (src dst i : Nat) (hsrc : 1 ≤ src) (hi : i < dst)
    (hdst : dst ≤ 1920) :
    min (⌊floatRound (floatRound (i : ℚ) *
      floatRound (floatRound (src : ℚ) / floatRound (dst : ℚ)))⌋).toNat
      4294967295 < src := by
  obtain ⟨hnn, hlt⟩ := sampled_coord_bounds src dst i hsrc hi hdst
  have hfl : ⌊floatRound (floatRound (i : ℚ) *
      floatRound (floatRound (src : ℚ) / floatRound (dst : ℚ)))⌋ <
      ((src : ℕ) : ℤ) := by
    rw [Int.floor_lt]
    push_cast
    exact hlt
  have htn : (⌊floatRound (floatRound (i : ℚ) *
      floatRound (floatRound (src : ℚ) / floatRound (dst : ℚ)))⌋).toNat < src :=
    (Int.toNat_lt (Int.floor_nonneg.mpr hnn)).mpr hfl
  omega

/-- The wrapped clamp `min (x0 + 1) (src - 1)` stays below the source
size whenever `x0` does. -/
theorem sampled_x1_lt (src x0 : Nat) (hx0 : x0 < src) :
    min (u32 (x0 + 1)) (u32 (src + 4294967295)) < src := by
  unfold u32
  omega

/-- A corner read index of the channel loop, after u32 wrapping, is
within the `src_width × src_height × 4`-byte input. -/
theorem read_index_lt (srcW srcH x y c : Nat) (hx : x < srcW) (hy : y < srcH)
    (hc : c < 4) :
    u32 (u32 (u32 (y * srcW) + x) * 4) + c < srcW * srcH * 4 := by
  have h1 : y * srcW + srcW ≤ srcH * srcW := by
    calc y * srcW + srcW = (y + 1) * srcW := (Nat.succ_mul y srcW).symm
      _ ≤ srcH * srcW := Nat.mul_le_mul_right srcW (by omega)
  have h2 : srcH * srcW = srcW * srcH := Nat.mul_comm _ _
  unfold u32
  omega

/-- The output write index is inside the (unwrapped, display-ceiling)
allocation, and that allocation does not wrap. -/
theorem write_index_lt (dstW dstH dx dy c : Nat) (hdx : dx < dstW)
    (hdy : dy < dstH) (hc : c < 4) (hW : dstW ≤ 1920) (hH : dstH ≤ 1080) :
    u32 (u32 (u32 (dy * dstW) + dx) * 4) + c < dstW * dstH * 4 ∧
    u32 (u32 (dstW * dstH) * 4) = dstW * dstH * 4 := by
  have h1 : dy * dstW + dstW ≤ dstH * dstW := by
    calc dy * dstW + dstW = (dy + 1) * dstW := (Nat.succ_mul dy dstW).symm
      _ ≤ dstH * dstW := Nat.mul_le_mul_right dstW (by omega)
  have h2 : dstH * dstW = dstW * dstH := Nat.mul_comm _ _
  have h3 : dstW * dstH ≤ 1920 * 1080 := Nat.mul_le_mul hW hH
  have h4 : dy * dstW ≤ 1080 * 1920 := Nat.mul_le_mul (by omega) hW
  unfold u32
  omega

/-- An `Option`-monad fold whose every step succeeds and preserves the
length of the state succeeds and preserves the length. -/
theorem foldlM_option_invariant {α : Type} (L : Nat) : ∀ (l : List α)
    (f : List Nat → α → Option (List Nat)) (s : List Nat),
    (∀ t a, a ∈ l → t.length = L → ∃ u, f t a = some u ∧ u.length = L) →
    s.length = L → ∃ out, l.foldlM f s = some out ∧ out.length = L
  | [], _, s, _, hs => ⟨s, by simp, hs⟩
  | a :: l, f, s, h, hs => by
      obtain ⟨u, hu, hul⟩ := h s a (by simp) hs
      obtain ⟨out, hout, houtl⟩ := foldlM_option_invariant L l f u
        (fun t b hb ht => h t b (by simp [hb]) ht) hul
      refine ⟨out, ?_, houtl⟩
      rw [List.foldlM_cons, hu]
      simpa using hout

/-- When all four corner reads and the write are within bounds,
`scaleChannel` succeeds and preserves the output length. -/
theorem scaleChannel_some (data : List Nat) (srcW x0 y0 x1 y1 : Nat)
    (xF yF : ℚ) (dstIdx : Nat) (res : List Nat) (c : Nat)
    (h00 : u32 (u32 (u32 (y0 * srcW) + x0) * 4) + c < data.length)
    (h10 : u32 (u32 (u32 (y0 * srcW) + x1) * 4) + c < data.length)
    (h01 : u32 (u32 (u32 (y1 * srcW) + x0) * 4) + c < data.length)
    (h11 : u32 (u32 (u32 (y1 * srcW) + x1) * 4) + c < data.length)
    (hw : dstIdx + c < res.length) :
    ∃ u, scaleChannel data srcW x0 y0 x1 y1 xF yF dstIdx res c = some u ∧
      u.length = res.length := by
  simp only [scaleChannel, scaleRead, scaleWrite, if_pos h00, if_pos h10,
    if_pos h01, if_pos h11, if_pos hw, Option.some_bind]
  exact ⟨_, rfl, by simp⟩

/-- On the display-ceiling destination domain every pixel of the
faithful scaler succeeds: the sampled coordinates stay inside the
source and the write index inside the allocation. -/
theorem scalePixel_some (data res : List Nat)
    (srcW srcH dstW dstH dstY dstX : Nat)
    (hsw : 1 ≤ srcW) (hsh : 1 ≤ srcH)
    (hdlen : data.length = srcW * srcH * 4)
    (hdx : dstX < dstW) (hdy : dstY < dstH)
    (hW : dstW ≤ 1920) (hH : dstH ≤ 1080)
    (hres : res.length = dstW * dstH * 4) :
    ∃ u, scalePixel data srcW srcH dstW
      (floatRound (floatRound (srcW : ℚ) / floatRound (dstW : ℚ)))
      (floatRound (floatRound (srcH : ℚ) / floatRound (dstH : ℚ)))
      dstY res dstX = some u ∧ u.length = res.length := by
  have hx0 := sampled_x0_lt srcW dstW dstX hsw hdx hW
  have hy0 := sampled_x0_lt srcH dstH dstY hsh hdy (by omega)
  have hx1 := sampled_x1_lt srcW _ hx0
  have hy1 := sampled_x1_lt srcH _ hy0
  simp only [scalePixel]
  refine foldlM_option_invariant res.length (List.range 4) _ res ?_ rfl
  intro t cc hcc ht
  rw [List.mem_range] at hcc
  obtain ⟨u, hu, hul⟩ := scaleChannel_some data srcW _ _ _ _ _ _ _ t cc
    (by rw [hdlen]; exact read_index_lt srcW srcH _ _ cc hx0 hy0 hcc)
    (by rw [hdlen]; exact read_index_lt srcW srcH _ _ cc hx1 hy0 hcc)
    (by rw [hdlen]; exact read_index_lt srcW srcH _ _ cc hx0 hy1 hcc)
    (by rw [hdlen]; exact read_index_lt srcW srcH _ _ cc hx1 hy1 hcc)
    (by
      rw [ht, hres]
      exact (write_index_lt dstW dstH dstX dstY cc hdx hdy hcc hW hH).1)
  exact ⟨u, hu, hul.trans ht⟩

/-! ### Chunking lemmas -/

theorem chunksGo_flatten : ∀ (l acc : List Char) (k : Nat),
    (chunksGo acc k l).flatten = acc.reverse ++ l
  | [], acc, k => by
      by_cases hacc : acc.isEmpty <;>
        simp_all [chunksGo, List.isEmpty_iff]
  | c :: cs, acc, 0 => by
      simp [chunksGo, chunksGo_flatten cs [c] 4095]
  | c :: cs, acc, Nat.succ k => by
      simp [chunksGo, chunksGo_flatten cs (c :: acc) k]

theorem chunks4096_flatten (s : List Char) : (chunks4096 s).flatten = s := by
  simpa using chunksGo_flatten s [] 4096

theorem chunksGo_mem_length : ∀ (l acc : List Char) (k : Nat),
    acc.length + k ≤ 4096 → ∀ ch ∈ chunksGo acc k l, ch.length ≤ 4096
  | [], acc, k, hk, ch, hch => by
      by_cases hacc : acc.isEmpty <;> simp_all [chunksGo]
      omega
  | c :: cs, acc, 0, hk, ch, hch => by
      simp only [chunksGo, List.mem_cons] at hch
      rcases hch with rfl | hch
      · simp; omega
      · exact chunksGo_mem_length cs [c] 4095 (by simp) ch hch
  | c :: cs, acc, Nat.succ k, hk, ch, hch => by
      simp only [chunksGo] at hch
      exact chunksGo_mem_length cs (c :: acc) k (by simp; omega) ch hch

theorem chunks4096_mem_length (s : List Char) : ∀ ch ∈ chunks4096 s, ch.length ≤ 4096 :=
  chunksGo_mem_length s [] 4096 (by simp)

/-! ### Chunk-emission lemmas -/

theorem mkChunks_map_payload (w h id : Nat) : ∀ (cs : List (List Char)) (isF : Bool),
    (mkChunks w h id isF cs).map GChunk.payload = cs
  | [], _ => rfl
  | c :: rest, isF => by
      cases isF <;>
        simp [mkChunks, GChunk.payload, mkChunks_map_payload w h id rest false]

theorem mkChunks_length (w h id : Nat) : ∀ (cs : List (List Char)) (isF : Bool),
    (mkChunks w h id isF cs).length = cs.length
  | [], _ => rfl
  | c :: rest, isF => by
      cases isF <;> simp [mkChunks, mkChunks_length w h id rest false]

theorem mkChunks_map_mFlag (w h id : Nat) : ∀ (cs : List (List Char)) (isF : Bool),
    cs ≠ [] →
    (mkChunks w h id isF cs).map GChunk.mFlag = List.replicate (cs.length - 1) 1 ++ [0]
  | [], _, hne => absurd rfl hne
  | [c], isF, _ => by cases isF <;> simp [mkChunks, GChunk.mFlag]
  | c :: c2 :: rest, isF, _ => by
      have ih := mkChunks_map_mFlag w h id (c2 :: rest) false (by simp)
      cases isF <;>
        simp_all [mkChunks, GChunk.mFlag, List.replicate_succ]

theorem mkChunks_cont_action (w h id : Nat) : ∀ (cs : List (List Char)),
    ∀ ch ∈ mkChunks w h id false cs, ch.action = none
  | [], ch, hch => by simp [mkChunks] at hch
  | c :: rest, ch, hch => by
      simp only [mkChunks, List.mem_cons, if_neg Bool.false_ne_true] at hch
      rcases hch with rfl | hch
      · rfl
      · exact mkChunks_cont_action w h id rest ch hch

/-! ### flatMap-over-range lemmas -/

theorem length_flatMap_range_const {α : Type} (f : Nat → List α) (L : Nat) :
    ∀ (n : Nat), (∀ i < n, (f i).length = L) →
    ((List.range n).flatMap f).length = n * L
  | 0, _ => by simp
  | Nat.succ n, hf => by
      rw [List.range_succ, List.flatMap_append, List.length_append,
        length_flatMap_range_const f L n (fun i hi => hf i (by omega))]
      simp [hf n (by omega), Nat.succ_mul]

theorem getD_flatMap_range {α : Type} (d : α) (f : Nat → List α) (L : Nat) :
    ∀ (n i j : Nat), (∀ m < n, (f m).length = L) → i < n → j < L →
    ((List.range n).flatMap f).getD (i * L + j) d = (f i).getD j d
  | 0, i, j, _, hi, _ => absurd hi (by omega)
  | Nat.succ n, i, j, hf, hi, hj => by
      rw [List.range_succ, List.flatMap_append]
      have hlen : ((List.range n).flatMap f).length = n * L :=
        length_flatMap_range_const f L n (fun m hm => hf m (by omega))
      rcases Nat.lt_or_ge i n with hin | hin
      · rw [List.getD_append _ _ _ _ (by
          rw [hlen]
          calc i * L + j < i * L + L := by omega
            _ = (i + 1) * L := by ring
            _ ≤ n * L := Nat.mul_le_mul_right L (by omega))]
        exact getD_flatMap_range d f L n i j (fun m hm => hf m (by omega)) hin hj
      · have hie : i = n := by omega
        subst hie
        rw [List.getD_append_right _ _ _ _ (by rw [hlen]; exact Nat.le_add_right _ _)]
        simp [hlen]

theorem flatMap_congr_mem {α β : Type} {l : List α} {f g : α → List β}
    (h : ∀ a ∈ l, f a = g a) : l.flatMap f = l.flatMap g := by
  induction l with
  | nil => rfl
  | cons a as ih =>
      simp only [List.flatMap_cons, h a (by simp)]
      rw [ih (fun b hb => h b (by simp [hb]))]

/-! ### Capture lemmas -/

/-- Under a passing bounds check and `stride ≥ 4 × width`, every pixel's
guard holds, so the capture loop reads all pixels. -/
theorem captureBufferContents_valid (buf : ShmBuffer)
    (hbounds : buf.offset + buf.height * buf.stride ≤ buf.pool.length)
    (hstride : 4 * buf.width ≤ buf.stride) :
    captureBufferContents buf =
      ⟨buf.width, buf.height,
        (List.range buf.height).flatMap fun y =>
          (List.range buf.width).flatMap fun x =>
            [buf.pool.getD (buf.offset + (y * buf.stride + x * 4) + 2) 0,
             buf.pool.getD (buf.offset + (y * buf.stride + x * 4) + 1) 0,
             buf.pool.getD (buf.offset + (y * buf.stride + x * 4)) 0,
             buf.pool.getD (buf.offset + (y * buf.stride + x * 4) + 3) 0]⟩ := by
  rw [captureBufferContents, if_neg (by omega)]
  refine congrArg (FrameData.mk buf.width buf.height) ?_
  refine flatMap_congr_mem (fun y hy => ?_)
  refine flatMap_congr_mem (fun x hx => ?_)
  rw [List.mem_range] at hy hx
  have hguard : y * buf.stride + x * 4 + 4 ≤ buf.height * buf.stride := by
    have h1 : x * 4 + 4 ≤ buf.stride := by omega
    have h2 : (y + 1) * buf.stride ≤ buf.height * buf.stride :=
      Nat.mul_le_mul_right buf.stride (by omega)
    calc y * buf.stride + x * 4 + 4 ≤ y * buf.stride + buf.stride := by omega
      _ = (y + 1) * buf.stride := by ring
      _ ≤ buf.height * buf.stride := h2
  simp only [if_pos hguard]

/-! ### Claim theorems -/

/-- C1 counterexample: the claim says a failing bounds check makes
`capture_frame` produce no frame and leave the pending slot untouched;
on the concrete out-of-bounds buffer (empty pool, 1×1, stride 4)
`capture_frame` produces a frame and the commit overwrites the slot. -/
theorem capture_overflow_claim_false :
    ¬(capture_frame (some ⟨[], 0, 1, 1, 4⟩) = none ∧
      commitCapture (some ⟨1, 1, [9, 9, 9, 9]⟩) (some ⟨[], 0, 1, 1, 4⟩) =
        some ⟨1, 1, [9, 9, 9, 9]⟩) := by
  decide

/-- C1 (amended): for every committed buffer whose validation fails
(`offset + height × stride > pool_length`), no pixel bytes are read, but
`capture_frame` returns a 0×0 frame with empty data rather than nothing,
and the commit overwrites the pending-frame slot with that empty frame. -/
theorem capture_overflow_empty_frame (buf : ShmBuffer) (pending : Option FrameData)
    (hbad : buf.pool.length < buf.offset + buf.height * buf.stride) :
    captureBufferContents buf = ⟨0, 0, []⟩ ∧
    capture_frame (some buf) = some ⟨0, 0, []⟩ ∧
    commitCapture pending (some buf) = some ⟨0, 0, []⟩ := by
  have h1 : captureBufferContents buf = ⟨0, 0, []⟩ := by
    rw [captureBufferContents, if_pos (by omega)]
  refine ⟨h1, ?_, ?_⟩
  · simp [capture_frame, h1]
  · simp [commitCapture, capture_frame, h1]

theorem capture_overflow_empty_frame_witness :
    captureBufferContents ⟨[], 0, 1, 1, 4⟩ = ⟨0, 0, []⟩ ∧
    commitCapture (some ⟨1, 1, [9, 9, 9, 9]⟩) (some ⟨[], 0, 1, 1, 4⟩) =
      some ⟨0, 0, []⟩ :=
  ⟨(capture_overflow_empty_frame ⟨[], 0, 1, 1, 4⟩ (some ⟨1, 1, [9, 9, 9, 9]⟩)
      (by decide)).1,
   (capture_overflow_empty_frame ⟨[], 0, 1, 1, 4⟩ (some ⟨1, 1, [9, 9, 9, 9]⟩)
      (by decide)).2.2⟩

/-- C2: a committed XRGB8888 buffer that passes the bounds check and has
`stride ≥ 4 × width` captures to a frame with the buffer's width and
height whose pixel `(x, y)` bytes are, in order R, G, B, X, the pool
bytes at memory offsets `+2`, `+1`, `+0`, `+3` of the pixel; the 4×2
all-(B=0, G=0, R=255, X=255) buffer yields `FF 00 00 FF` ×8. -/
theorem capture_xrgb_conversion (buf : ShmBuffer)
    (hbounds : buf.offset + buf.height * buf.stride ≤ buf.pool.length)
    (hstride : 4 * buf.width ≤ buf.stride) :
    (captureBufferContents buf).width = buf.width ∧
    (captureBufferContents buf).height = buf.height ∧
    (∀ y < buf.height, ∀ x < buf.width,
      (captureBufferContents buf).data.getD ((y * buf.width + x) * 4) 0 =
        buf.pool.getD (buf.offset + (y * buf.stride + x * 4) + 2) 0 ∧
      (captureBufferContents buf).data.getD ((y * buf.width + x) * 4 + 1) 0 =
        buf.pool.getD (buf.offset + (y * buf.stride + x * 4) + 1) 0 ∧
      (captureBufferContents buf).data.getD ((y * buf.width + x) * 4 + 2) 0 =
        buf.pool.getD (buf.offset + (y * buf.stride + x * 4)) 0 ∧
      (captureBufferContents buf).data.getD ((y * buf.width + x) * 4 + 3) 0 =
        buf.pool.getD (buf.offset + (y * buf.stride + x * 4) + 3) 0) ∧
    captureBufferContents ⟨List.flatten (List.replicate 8 [0, 0, 255, 255]), 0, 4, 2, 16⟩ =
      ⟨4, 2, List.flatten (List.replicate 8 [255, 0, 0, 255])⟩ := by
  rw [captureBufferContents_valid buf hbounds hstride]
  refine ⟨rfl, rfl, fun y hy x hx => ?_, by decide⟩
  dsimp only
  have hrow : ∀ m < buf.height,
      ((List.range buf.width).flatMap fun x =>
        [buf.pool.getD (buf.offset + (m * buf.stride + x * 4) + 2) 0,
         buf.pool.getD (buf.offset + (m * buf.stride + x * 4) + 1) 0,
         buf.pool.getD (buf.offset + (m * buf.stride + x * 4)) 0,
         buf.pool.getD (buf.offset + (m * buf.stride + x * 4) + 3) 0]).length =
      buf.width * 4 :=
    fun m _ => length_flatMap_range_const _ 4 buf.width (fun _ _ => rfl)
  have hmain : ∀ k < 4, ((List.range buf.height).flatMap fun y =>
      (List.range buf.width).flatMap fun x =>
        [buf.pool.getD (buf.offset + (y * buf.stride + x * 4) + 2) 0,
         buf.pool.getD (buf.offset + (y * buf.stride + x * 4) + 1) 0,
         buf.pool.getD (buf.offset + (y * buf.stride + x * 4)) 0,
         buf.pool.getD (buf.offset + (y * buf.stride + x * 4) + 3) 0]).getD
          ((y * buf.width + x) * 4 + k) 0 =
      [buf.pool.getD (buf.offset + (y * buf.stride + x * 4) + 2) 0,
       buf.pool.getD (buf.offset + (y * buf.stride + x * 4) + 1) 0,
       buf.pool.getD (buf.offset + (y * buf.stride + x * 4)) 0,
       buf.pool.getD (buf.offset + (y * buf.stride + x * 4) + 3) 0].getD k 0 := by
    intro k hk
    rw [show (y * buf.width + x) * 4 + k = y * (buf.width * 4) + (x * 4 + k) by ring]
    rw [getD_flatMap_range 0
      (fun y => (List.range buf.width).flatMap fun x =>
        [buf.pool.getD (buf.offset + (y * buf.stride + x * 4) + 2) 0,
         buf.pool.getD (buf.offset + (y * buf.stride + x * 4) + 1) 0,
         buf.pool.getD (buf.offset + (y * buf.stride + x * 4)) 0,
         buf.pool.getD (buf.offset + (y * buf.stride + x * 4) + 3) 0])
      (buf.width * 4) buf.height y (x * 4 + k) hrow hy (by omega)]
    rw [getD_flatMap_range 0
      (fun x =>
        [buf.pool.getD (buf.offset + (y * buf.stride + x * 4) + 2) 0,
         buf.pool.getD (buf.offset + (y * buf.stride + x * 4) + 1) 0,
         buf.pool.getD (buf.offset + (y * buf.stride + x * 4)) 0,
         buf.pool.getD (buf.offset + (y * buf.stride + x * 4) + 3) 0])
      4 buf.width x k (fun _ _ => rfl) hx hk]
  refine ⟨?_, ?_, ?_, ?_⟩
  · simpa using hmain 0 (by omega)
  · simpa using hmain 1 (by omega)
  · simpa using hmain 2 (by omega)
  · simpa using hmain 3 (by omega)

theorem capture_xrgb_conversion_witness :
    (captureBufferContents ⟨List.flatten (List.replicate 8 [0, 0, 255, 255]),
        0, 4, 2, 16⟩).width = 4 ∧
    (captureBufferContents ⟨List.flatten (List.replicate 8 [0, 0, 255, 255]),
        0, 4, 2, 16⟩).data.getD 0 0 = 255 :=
  ⟨(capture_xrgb_conversion ⟨List.flatten (List.replicate 8 [0, 0, 255, 255]),
      0, 4, 2, 16⟩ (by decide) (by decide)).1,
   by
    have h := (capture_xrgb_conversion ⟨List.flatten (List.replicate 8 [0, 0, 255, 255]),
      0, 4, 2, 16⟩ (by decide) (by decide)).2.2.1 0 (by decide) 0 (by decide)
    simpa using h.1⟩

/-- C4: for every committed buffer with valid dimensions (bounds check
passes and `stride ≥ 4 × width`), the captured frame satisfies
`data.len() == width × height × 4`. -/
theorem capture_frame_byte_length (buf : ShmBuffer)
    (hbounds : buf.offset + buf.height * buf.stride ≤ buf.pool.length)
    (hstride : 4 * buf.width ≤ buf.stride) :
    (captureBufferContents buf).data.length = buf.width * buf.height * 4 := by
  rw [captureBufferContents_valid buf hbounds hstride]
  have hdata : ((List.range buf.height).flatMap fun y =>
      (List.range buf.width).flatMap fun x =>
        [buf.pool.getD (buf.offset + (y * buf.stride + x * 4) + 2) 0,
         buf.pool.getD (buf.offset + (y * buf.stride + x * 4) + 1) 0,
         buf.pool.getD (buf.offset + (y * buf.stride + x * 4)) 0,
         buf.pool.getD (buf.offset + (y * buf.stride + x * 4) + 3) 0]).length =
      buf.height * (buf.width * 4) :=
    length_flatMap_range_const _ (buf.width * 4) buf.height
      (fun y _ => length_flatMap_range_const _ 4 buf.width (fun _ _ => rfl))
  dsimp only
  calc _ = buf.height * (buf.width * 4) := hdata
    _ = buf.width * buf.height * 4 := by ring

theorem capture_frame_byte_length_witness :
    (captureBufferContents ⟨List.flatten (List.replicate 8 [0, 0, 255, 255]),
        0, 4, 2, 16⟩).data.length = 4 * 2 * 4 :=
  capture_frame_byte_length ⟨List.flatten (List.replicate 8 [0, 0, 255, 255]),
    0, 4, 2, 16⟩ (by decide) (by decide)

/-- C5: a terminal key event on Char c or Char q with the CONTROL
modifier set translates to exactly one Quit event and never a
KeyboardKey event, whatever the other modifiers and the event kind. -/
theorem ctrl_c_q_quit (ti : TerminalInput) (time : Nat)
    (querySizePixels : Option (Nat × Nat)) (c : Char) (mods : KeyModifiers)
    (kind : KeyEventKind) (hc : c = 'c' ∨ c = 'q') (hctrl : mods.control = true) :
    translate_event ti time querySizePixels (.key (.char c) mods kind) =
      some .quit := by
  rcases hc with rfl | rfl <;> simp [translate_event, hctrl]

theorem ctrl_c_q_quit_witness :
    translate_event ⟨80, 24, 800, 480⟩ 0 none
        (.key (.char 'c') ⟨true, false, false⟩ .press) = some .quit ∧
    translate_event ⟨80, 24, 800, 480⟩ 0 none
        (.key (.char 'q') ⟨true, false, false⟩ .press) = some .quit :=
  ⟨ctrl_c_q_quit ⟨80, 24, 800, 480⟩ 0 none 'c' ⟨true, false, false⟩ .press
      (Or.inl rfl) rfl,
   ctrl_c_q_quit ⟨80, 24, 800, 480⟩ 0 none 'q' ⟨true, false, false⟩ .press
      (Or.inr rfl) rfl⟩

/-- C8: `toplevel_destroyed` removes the destroyed toplevel from the
tracked list; exactly when the list becomes empty, `running` becomes
false and the loop is signalled to stop; otherwise both are unchanged. -/
theorem toplevel_destroyed_removes_and_stops (s : LoopState) (surface : Nat) :
    (toplevel_destroyed s surface).toplevels =
      s.toplevels.filter (fun tl => tl ≠ surface) ∧
    surface ∉ (toplevel_destroyed s surface).toplevels ∧
    ((toplevel_destroyed s surface).toplevels = [] →
      (toplevel_destroyed s surface).running = false ∧
      (toplevel_destroyed s surface).stopRequested = true) ∧
    ((toplevel_destroyed s surface).toplevels ≠ [] →
      (toplevel_destroyed s surface).running = s.running ∧
      (toplevel_destroyed s surface).stopRequested = s.stopRequested) := by
  have hmem : surface ∉ s.toplevels.filter (fun tl => tl ≠ surface) := by
    intro hmem
    rcases List.mem_filter.1 hmem with ⟨-, hne⟩
    simp at hne
  unfold toplevel_destroyed
  by_cases hempty : (s.toplevels.filter (fun tl => tl ≠ surface)).isEmpty
  · have he : s.toplevels.filter (fun tl => tl ≠ surface) = [] :=
      List.isEmpty_iff.mp hempty
    rw [if_pos hempty]
    exact ⟨rfl, hmem, fun _ => ⟨rfl, rfl⟩, fun hne => absurd he hne⟩
  · have he : s.toplevels.filter (fun tl => tl ≠ surface) ≠ [] := by
      intro h
      exact hempty (by rw [h]; rfl)
    rw [if_neg hempty]
    exact ⟨rfl, hmem, fun h => absurd h he, fun _ => ⟨rfl, rfl⟩⟩

theorem toplevel_destroyed_removes_and_stops_witness :
    (toplevel_destroyed ⟨[7], true, false⟩ 7).running = false ∧
    (toplevel_destroyed ⟨[5, 7], true, false⟩ 7).running = true :=
  ⟨((toplevel_destroyed_removes_and_stops ⟨[7], true, false⟩ 7).2.2.1
      (by decide)).1,
   by
    have h := ((toplevel_destroyed_removes_and_stops ⟨[5, 7], true, false⟩ 7).2.2.2
      (by decide)).1
    rw [h]⟩

/-- The pending-frame slot after a nonempty sequence of writes holds
exactly the last-written frame. -/
theorem foldl_slotWrite_last : ∀ (fs : List FrameData) (init : Option FrameData)
    (hne : fs ≠ []), fs.foldl slotWrite init = some (fs.getLast hne)
  | [], _, hne => absurd rfl hne
  | [f], init, _ => rfl
  | f :: f2 :: rest, init, _ => by
      rw [List.foldl_cons]
      rw [foldl_slotWrite_last (f2 :: rest) (slotWrite init f) (by simp)]
      congr 1

/-- C9: after any nonempty sequence of writes to the pending-frame slot,
one take yields the last-written frame and leaves the slot empty; the
slot never holds more than one frame. -/
theorem pending_slot_last_write_wins (init : Option FrameData)
    (fs : List FrameData) (hne : fs ≠ []) :
    slotTake (fs.foldl slotWrite init) = (some (fs.getLast hne), none) ∧
    (∀ slot : Option FrameData, (slotFrames slot).length ≤ 1) := by
  refine ⟨?_, fun slot => ?_⟩
  · rw [slotTake, foldl_slotWrite_last fs init hne]
  · cases slot <;> simp [slotFrames]

theorem pending_slot_last_write_wins_witness :
    slotTake ([⟨1, 1, [1, 2, 3, 4]⟩, ⟨2, 1, [5, 6, 7, 8, 9, 10, 11, 12]⟩].foldl
        slotWrite none) =
      (some ⟨2, 1, [5, 6, 7, 8, 9, 10, 11, 12]⟩, none) := by
  have h := pending_slot_last_write_wins none
    [⟨1, 1, [1, 2, 3, 4]⟩, ⟨2, 1, [5, 6, 7, 8, 9, 10, 11, 12]⟩] (by simp)
  simpa using h.1

/-- C6: every keysym in the static US-QWERTY table routes to its evdev
code plus 8; every keysym outside the table routes to 0 + 8 = 8; a
terminal Char a press yields keysym 0x61 with state Pressed and routes
to physical keycode 30 + 8 = 38. -/
theorem qwerty_keycode_derivation :
    (∀ p ∈ usQwertyTable, keysym_to_keycode p.1 = p.2 + 8) ∧
    (∀ keysym, keysym ∉ usQwertyKeys → keysym_to_keycode keysym = 8) ∧
    keycode_to_keysym (KeyCode.char 'a') = some 0x61 ∧
    (∀ (ti : TerminalInput) (time : Nat) (qsp : Option (Nat × Nat))
      (mods : KeyModifiers),
      translate_event ti time qsp (.key (.char 'a') mods .press) =
        some (.keyboardKey 0x61 .pressed time)) ∧
    keysym_to_keycode 0x61 = 30 + 8 := by
  refine ⟨by decide, ?_, by decide, fun ti time qsp mods => rfl, by decide⟩
  intro ks hks
  have hnamed : ks ∉ ([0xff1b, 0xff0d, 0xff09, 0xff08, 0x20, 0xff51, 0xff53,
      0xff52, 0xff54, 0xff50, 0xff57, 0xff55, 0xff56, 0xff63, 0xffff] :
      List Nat) := by
    intro hmem
    have hsub : ∀ m ∈ ([0xff1b, 0xff0d, 0xff09, 0xff08, 0x20, 0xff51, 0xff53,
        0xff52, 0xff54, 0xff50, 0xff57, 0xff55, 0xff56, 0xff63, 0xffff] :
        List Nat), m ∈ usQwertyKeys := by decide
    exact hks (hsub ks hmem)
  simp only [List.mem_cons, List.not_mem_nil, or_false] at hnamed
  push_neg at hnamed
  obtain ⟨h1, h2, h3, h4, h5, h6, h7, h8, h9, h10, h11, h12, h13, h14, h15⟩ :=
    hnamed
  unfold keysym_to_keycode evdevCode
  rw [if_neg h1, if_neg h2, if_neg h3, if_neg h4, if_neg h5, if_neg h6,
    if_neg h7, if_neg h8, if_neg h9, if_neg h10, if_neg h11, if_neg h12,
    if_neg h13, if_neg h14, if_neg h15]
  by_cases hlt : ks < 128
  · have hascii : ∀ m, m < 128 → m ∈ usQwertyKeys ∨ asciiEvdev m = 0 := by decide
    have ha := (hascii ks hlt).resolve_left hks
    rw [if_pos hlt, ha]
  · rw [if_neg hlt]

theorem qwerty_keycode_derivation_witness :
    keysym_to_keycode 0xffbe = 8 ∧ keysym_to_keycode 0x61 = 38 :=
  ⟨qwerty_keycode_derivation.2.1 0xffbe (by decide),
   qwerty_keycode_derivation.2.2.2.2⟩

/-- C7: `cell_to_pixel` returns the center of the terminal cell,
`px = col × (pixel_w / cols) + cell_w / 2` and likewise for y; for
`col < cols` and `row < rows` the result lies inside
`[0, pixel_w) × [0, pixel_h)`; cell (10, 5) on an 80×24 terminal of
800×480 pixels maps to (105, 110). -/
theorem cell_to_pixel_center (ti : TerminalInput) (col row : Nat)
    (hcol : col < ti.termWidth) (hrow : row < ti.termHeight)
    (hpw : 0 < ti.pixelWidth) (hph : 0 < ti.pixelHeight) :
    cell_to_pixel ti col row =
      ((col : ℚ) * ((ti.pixelWidth : ℚ) / (ti.termWidth : ℚ)) +
        ((ti.pixelWidth : ℚ) / (ti.termWidth : ℚ)) / 2,
       (row : ℚ) * ((ti.pixelHeight : ℚ) / (ti.termHeight : ℚ)) +
        ((ti.pixelHeight : ℚ) / (ti.termHeight : ℚ)) / 2) ∧
    0 ≤ (cell_to_pixel ti col row).1 ∧
    (cell_to_pixel ti col row).1 < ti.pixelWidth ∧
    0 ≤ (cell_to_pixel ti col row).2 ∧
    (cell_to_pixel ti col row).2 < ti.pixelHeight ∧
    cell_to_pixel ⟨80, 24, 800, 480⟩ 10 5 = (105, 110) := by
  have key : ∀ (c t p : Nat), c < t → 0 < p →
      0 ≤ (c : ℚ) * ((p : ℚ) / (t : ℚ)) + ((p : ℚ) / (t : ℚ)) / 2 ∧
      (c : ℚ) * ((p : ℚ) / (t : ℚ)) + ((p : ℚ) / (t : ℚ)) / 2 < p := by
    intro c t p hct hp
    have ht : (0 : ℚ) < (t : ℚ) := by exact_mod_cast Nat.pos_of_ne_zero (by omega)
    have hpq : (0 : ℚ) < (p : ℚ) := by exact_mod_cast hp
    have hcell : (0 : ℚ) < (p : ℚ) / (t : ℚ) := div_pos hpq ht
    refine ⟨by positivity, ?_⟩
    have heq : (c : ℚ) * ((p : ℚ) / (t : ℚ)) + ((p : ℚ) / (t : ℚ)) / 2 =
        ((c : ℚ) + 1 / 2) * ((p : ℚ) / (t : ℚ)) := by ring
    rw [heq]
    have hclt : (c : ℚ) + 1 / 2 < (t : ℚ) := by
      have hcle : (c : ℚ) + 1 ≤ (t : ℚ) := by exact_mod_cast hct
      linarith
    calc ((c : ℚ) + 1 / 2) * ((p : ℚ) / (t : ℚ)) <
          (t : ℚ) * ((p : ℚ) / (t : ℚ)) := mul_lt_mul_of_pos_right hclt hcell
      _ = (p : ℚ) := by field_simp
  have hx := key col ti.termWidth ti.pixelWidth hcol hpw
  have hy := key row ti.termHeight ti.pixelHeight hrow hph
  exact ⟨rfl, hx.1, hx.2, hy.1, hy.2, by norm_num [cell_to_pixel]⟩

theorem cell_to_pixel_center_witness :
    cell_to_pixel ⟨80, 24, 800, 480⟩ 10 5 = (105, 110) :=
  (cell_to_pixel_center ⟨80, 24, 800, 480⟩ 10 5 (by decide) (by decide)
    (by decide) (by decide)).2.2.2.2.2

/-- C3: for a frame within the 1920×1080 ceiling (no scaling),
`display_frame` emits the base64 payload in chunks of at most 4096
characters; decoding the concatenated payloads reproduces the input;
only the first chunk carries the parameters a=T, f=32, s=width,
v=height, image id and q=2; the more-chunks flag is 1 on every chunk
but the last, where it is 0; the 2×1 input DE AD BE EF 00 11 22 33
produces a single chunk with s=2, v=1, f=32, m=0 and payload
3q2+7wARIjM=. -/
theorem display_frame_chunking (width height imageId : Nat) (data : List Nat)
    (hw : width ≤ 1920) (hh : height ≤ 1080) (hbytes : ∀ b ∈ data, b < 256)
    (hne : data ≠ []) :
    (∀ ch ∈ display_frame width height data imageId,
      ch.payload.length ≤ 4096) ∧
    b64decode ((display_frame width height data imageId).map
      GChunk.payload).flatten = data ∧
    display_frame width height data imageId ≠ [] ∧
    (∀ hd : display_frame width height data imageId ≠ [],
      ((display_frame width height data imageId).head hd).action = some "T" ∧
      ((display_frame width height data imageId).head hd).fmt = some 32 ∧
      ((display_frame width height data imageId).head hd).sParam = some width ∧
      ((display_frame width height data imageId).head hd).vParam = some height ∧
      ((display_frame width height data imageId).head hd).imageId =
        some imageId ∧
      ((display_frame width height data imageId).head hd).quiet = some 2) ∧
    (∀ ch ∈ (display_frame width height data imageId).tail,
      ch.action = none) ∧
    (display_frame width height data imageId).map GChunk.mFlag =
      List.replicate ((display_frame width height data imageId).length - 1) 1 ++
        [0] ∧
    display_frame 2 1 [0xDE, 0xAD, 0xBE, 0xEF, 0x00, 0x11, 0x22, 0x33] 1 =
      [GChunk.first "T" 32 2 1 0 1 2 ("3q2+7wARIjM=".toList)] := by
  have hscale : displayScale width height data = (data, width, height) := by
    rw [displayScale, if_neg (by omega)]
  have hout : display_frame width height data imageId =
      mkChunks width height imageId true (chunks4096 (b64encode data)) := by
    rw [display_frame, hscale]
  have hflat : (chunks4096 (b64encode data)).flatten = b64encode data :=
    chunks4096_flatten _
  have hcsne : chunks4096 (b64encode data) ≠ [] := by
    intro h
    have henc : b64encode data = [] := by rw [← hflat, h]; rfl
    obtain ⟨a, rest, rfl⟩ := List.exists_cons_of_ne_nil hne
    exact b64encode_ne_nil a rest henc
  obtain ⟨c, rest, hcseq⟩ := List.exists_cons_of_ne_nil hcsne
  have hexp : display_frame width height data imageId =
      GChunk.first "T" 32 width height (if rest.isEmpty then 0 else 1) imageId 2
          c ::
        mkChunks width height imageId false rest := by
    rw [hout, hcseq]; rfl
  have hfirst : ∀ (l : List GChunk) (hl : l ≠ []) (ch : GChunk)
      (t : List GChunk), l = ch :: t → l.head hl = ch := by
    intro l hl ch t hlt
    subst hlt
    rfl
  refine ⟨?_, ?_, ?_, ?_, ?_, ?_, ?_⟩
  · intro ch hch
    have hpmem : ch.payload ∈ chunks4096 (b64encode data) := by
      rw [← mkChunks_map_payload width height imageId
        (chunks4096 (b64encode data)) true]
      exact List.mem_map_of_mem _ (hout ▸ hch)
    exact chunks4096_mem_length (b64encode data) ch.payload hpmem
  · rw [hout, mkChunks_map_payload, hflat, b64decode_encode data hbytes]
  · rw [hexp]
    simp
  · intro hd
    rw [hfirst _ hd _ _ hexp]
    exact ⟨rfl, rfl, rfl, rfl, rfl, rfl⟩
  · intro ch hch
    rw [hexp] at hch
    exact mkChunks_cont_action width height imageId rest ch hch
  · rw [hout, mkChunks_length width height imageId _ true,
      mkChunks_map_mFlag width height imageId _ true hcsne]
  · rfl

theorem display_frame_chunking_witness :
    display_frame 2 1 [0xDE, 0xAD, 0xBE, 0xEF, 0x00, 0x11, 0x22, 0x33] 1 =
      [GChunk.first "T" 32 2 1 0 1 2 ("3q2+7wARIjM=".toList)] :=
  (display_frame_chunking 2 1 1 [0xDE, 0xAD, 0xBE, 0xEF, 0x00, 0x11, 0x22, 0x33]
    (by decide) (by decide) (by decide) (by decide)).2.2.2.2.2.2

/-- Exact-rounding evaluations used at the fp counterexample input. -/
theorem floatRound_three : floatRound (3 : ℚ) = 3 := by
  have h := floatRound_dyadic 3 0 (by norm_num) (by norm_num)
  norm_num at h
  exact h

theorem floatRound_pow25 : floatRound (33554432 : ℚ) = 33554432 := by
  have h := floatRound_dyadic 1 25 (by norm_num) (by norm_num)
  norm_num at h
  exact h

theorem floatRound_ratio3 : floatRound ((3 : ℚ) / 33554432) = (3 : ℚ) / 33554432 := by
  have h := floatRound_dyadic 3 (-25) (by norm_num) (by norm_num)
  norm_num at h
  exact h

/-- The tie that drives the fp failure: `33554431 as f32` rounds up to
`2 ^ 25` (25 significand bits do not fit; ties go to the even
neighbour). -/
theorem floatRound_tie : floatRound (33554431 : ℚ) = 33554432 := by
  have hpos : (0 : ℚ) < 33554431 := by norm_num
  rw [floatRound, if_neg (by norm_num), if_pos hpos]
  have hrexp : rexp (33554431 : ℚ) = 24 := by
    rw [rexp]
    have hnum : (33554431 : ℚ).num = 33554431 := by norm_num
    have hden : (33554431 : ℚ).den = 1 := by norm_num
    rw [hnum, hden]
    rw [show ((33554431 : ℤ)).toNat = 33554431 from rfl]
    rw [show Nat.log2 33554431 = 24 from by
      rw [Nat.log2_eq_log_two]
      exact Nat.log_eq_of_pow_le_of_lt_pow (by norm_num) (by norm_num)]
    rw [show Nat.log2 1 = 0 from by
      rw [Nat.log2_eq_log_two]
      exact Nat.log_eq_of_pow_le_of_lt_pow (by norm_num) (by norm_num)]
    norm_num
  rw [floatRoundPos, hrexp]
  have hscaled : (33554431 : ℚ) * 2 ^ ((23 : ℤ) - 24) = 16777215 + 1 / 2 := by
    norm_num
  rw [hscaled]
  have hfloor : ⌊(16777215 : ℚ) + 1 / 2⌋ = 16777215 := by
    rw [Int.floor_eq_iff]
    norm_num
  rw [hfloor]
  rw [if_neg (by norm_num), if_neg (by norm_num), if_neg (by norm_num)]
  norm_num

/-- Reading corner `x0 = 3` of a 3-pixel-wide row addresses byte 12 of
a 12-byte input: the first channel read panics, whatever the fractional
weights and output state. -/
theorem scaleChannel_oob (xF yF : ℚ) (d : Nat) (res : List Nat) :
    scaleChannel (List.replicate 12 0) 3 3 0 2 0 xF yF d res 0 = none := by
  simp only [scaleChannel, scaleRead]
  rw [if_neg (by norm_num [u32])]
  rfl

/-- C10 counterexample: the claim (every destination size scales with
no out-of-range access or panic and yields `dst_width × dst_height × 4`
bytes) is false of the program. First conjunct: a 2^30 × 1 destination
wraps the u32 allocation size to 0 and the first write panics. Second
conjunct: at `src_width = 3`, `dst_width = 2^25`, the last pixel's
`dst_x = 2^25 - 1` rounds to `2^25` in f32, the sampled column floor
becomes 3 = src_width, and the first corner read of that pixel panics
on a 12-byte input. -/
theorem scale_image_claim_false :
    scale_image_rs [0, 0, 0, 0] 1 1 1073741824 1 = none ∧
    scalePixel (List.replicate 12 0) 3 1 33554432
      (floatRound (floatRound ((3 : Nat) : ℚ) / floatRound ((33554432 : Nat) : ℚ)))
      (floatRound (floatRound ((1 : Nat) : ℚ) / floatRound ((1 : Nat) : ℚ)))
      0 (List.replicate 134217728 0) 33554431 = none := by
  constructor
  · have halloc : u32 (u32 (1073741824 * 1) * 4) = 0 := by norm_num [u32]
    have hpix : scalePixel [0, 0, 0, 0] 1 1 1073741824
        (floatRound (floatRound ((1 : Nat) : ℚ) / floatRound ((1073741824 : Nat) : ℚ)))
        (floatRound (floatRound ((1 : Nat) : ℚ) / floatRound ((1 : Nat) : ℚ)))
        0 [] 0 = none := by
      simp only [scalePixel, Nat.cast_zero, floatRound_zero, zero_mul,
        Int.floor_zero, Int.toNat_zero, Nat.zero_min, Nat.min_zero]
      rw [show List.range 4 = 0 :: [1, 2, 3] from rfl, List.foldlM_cons]
      simp [scaleChannel, scaleRead, scaleWrite, u32]
    simp only [scale_image_rs, halloc, List.replicate_zero]
    rw [show List.range 1 = [0] from rfl, List.foldlM_cons]
    rw [show (1073741824 : Nat) = 1073741823 + 1 from rfl, List.range_succ_eq_map,
      List.foldlM_cons]
    rw [hpix]
    rfl
  · simp only [scalePixel, Nat.cast_ofNat, Nat.cast_zero, Nat.cast_one,
      floatRound_zero, zero_mul]
    rw [floatRound_three, floatRound_pow25, floatRound_ratio3, floatRound_tie]
    rw [show (33554432 : ℚ) * ((3 : ℚ) / 33554432) = 3 from by norm_num,
      floatRound_three]
    rw [show ⌊(3 : ℚ)⌋ = 3 from by rw [Int.floor_eq_iff]; norm_num]
    rw [show ⌊(0 : ℚ)⌋ = 0 from Int.floor_zero]
    rw [show ((3 : ℤ)).toNat ⊓ 4294967295 = 3 from rfl]
    rw [show ((0 : ℤ)).toNat ⊓ 4294967295 = 0 from rfl]
    rw [show u32 (3 + 1) ⊓ u32 (3 + 4294967295) = 2 from rfl]
    rw [show u32 (0 + 1) ⊓ u32 (1 + 4294967295) = 0 from rfl]
    rw [show List.range 4 = 0 :: [1, 2, 3] from rfl, List.foldlM_cons]
    rw [scaleChannel_oob]
    rfl

/-- C10 (amended): for every source image with `src_width ≥ 1`,
`src_height ≥ 1` and input of exactly `src_width × src_height × 4`
bytes, and every destination size within the 1920×1080 display ceiling
(the only sizes `display_frame` ever requests), the bit-faithful scaler
— f32 rounding, u32 wrapping, checked accesses — performs no
out-of-range access or panic and returns a buffer of exactly
`dst_width × dst_height × 4` bytes. -/
theorem scale_image_rs_display_safe (data : List Nat)
    (srcW srcH dstW dstH : Nat)
    (hsw : 1 ≤ srcW) (hsh : 1 ≤ srcH)
    (hdlen : data.length = srcW * srcH * 4)
    (hW : dstW ≤ 1920) (hH : dstH ≤ 1080) :
    ∃ out, scale_image_rs data srcW srcH dstW dstH = some out ∧
      out.length = dstW * dstH * 4 := by
  have halloc : (List.replicate (u32 (u32 (dstW * dstH) * 4)) (0 : Nat)).length =
      dstW * dstH * 4 := by
    rw [List.length_replicate]
    have hb : dstW * dstH ≤ 1920 * 1080 := Nat.mul_le_mul hW hH
    unfold u32
    omega
  simp only [scale_image_rs]
  refine foldlM_option_invariant (dstW * dstH * 4) (List.range dstH) _ _ ?_ halloc
  intro t dstY hdy ht
  rw [List.mem_range] at hdy
  refine foldlM_option_invariant (dstW * dstH * 4) (List.range dstW) _ t ?_ ht
  intro t2 dstX hdx ht2
  rw [List.mem_range] at hdx
  obtain ⟨u, hu, hul⟩ := scalePixel_some data t2 srcW srcH dstW dstH dstY dstX
    hsw hsh hdlen hdx hdy hW hH (ht2.trans rfl)
  exact ⟨u, hu, hul.trans ht2⟩

theorem scale_image_rs_display_safe_witness :
    ∃ out, scale_image_rs [1, 2, 3, 4] 1 1 2 2 = some out ∧
      out.length = 2 * 2 * 4 :=
  scale_image_rs_display_safe [1, 2, 3, 4] 1 1 2 2 (by decide) (by decide)
    (by decide) (by decide) (by decide)

end Termui
